import Mathlib

/-!
Verification development for the srpk secret store.

The development shallowly embeds the two components the specification
covers: the envelope codec of `src/crypt.rs` and the vault session
lifecycle of `src/vault.rs`.

External crates (bcrypt, sha2, aes-gcm-siv, base64, sqlite) are not code
of this repository; they are modelled as an abstract structure of
primitive operations (`Prims`, `VaultPrims`) together with the contracts
those crates document (`PrimsOk`).  Every function of the repository
itself is translated concretely from the Rust source.

Bytes are `Fin 256`.  Randomness (the OS RNG filling the nonce) is
embedded by passing the generated random bytes as an explicit argument.
Rust panics (out-of-range slicing) are a distinguished `Outcome.panicked`
result.
-/

deriving instance DecidableEq for Except

abbrev Byte := Fin 256

def byteOf (n : Nat) : Byte := ⟨n % 256, Nat.mod_lt _ (by norm_num)⟩

def strBytes (s : String) : List Byte := s.data.map (fun c => byteOf c.toNat)

/-- The error enum of `src/errors.rs` (the union of the variants used across
the source files; `src/crypt.rs` additionally uses `Base64Decode`, and
`src/vault.rs` attaches the offending key to `KeyDuplicate`/`KeyNonExist`). -/
inductive SrpkError where
  | DBCreateTable
  | DBSQLConn
  | BCryptHash
  | AES256Encrypt
  | AES256Decrypt
  | Base64Decode
  | PathTaken
  | PathEmpty
  | FilePerms
  | UTF8Decode
  | NoParam
  | NoVault
  | KeyDuplicate (key : String)
  | KeyNonExist (key : String)
  | Unknown
deriving DecidableEq, Repr

/-- Result of a Rust function that may also panic (index out of range). -/
inductive Outcome (α : Type) where
  | ok (v : α)
  | err (e : SrpkError)
  | panicked
deriving DecidableEq, Repr

/-- Abstract interface to the external crates used by `src/crypt.rs`:
`bcrypt::hash_with_salt` (rendered to its `$2b$...` string), `sha2::Sha256`
(32-byte digest of a string), the `Aes256GcmSiv` AEAD, and the
`base64` engine `STANDARD_NO_PAD`. -/
structure Prims where
  bcryptStr : String → Nat → List Byte → Option String
  sha256 : String → List Byte
  aeadEncrypt : List Byte → List Byte → List Byte → Option (List Byte)
  aeadDecrypt : List Byte → List Byte → List Byte → Option (List Byte)
  b64encode : List Byte → String
  b64decode : String → Option (List Byte)

/-- The fixed all-zero salt `[0u8; 16]` hard-coded in `get_aes256gcmsiv`. -/
def zeroSalt : List Byte := List.replicate 16 0

/-- `get_aes256gcmsiv` of `src/crypt.rs`: bcrypt-hash the password with the
hard-coded cost `12` and the hard-coded zero salt, SHA-256 the resulting
hash string, and use the 32-byte digest as the AES-256-GCM-SIV key.
We return the derived key (the Rust code returns the cipher keyed with it). -/
def get_aes256gcmsiv (P : Prims) (pass : String) : Except SrpkError (List Byte) :=
  match P.bcryptStr pass 12 zeroSalt with
  | none => .error .BCryptHash
  | some bcrypt => .ok (P.sha256 bcrypt)

/-- `aes256_encrypt_with_nonce` of `src/crypt.rs`: AEAD-encrypt the plaintext
under the derived key and the given nonce, then base64-encode
`nonce || ciphertext` (STANDARD_NO_PAD). -/
def aes256_encrypt_with_nonce (P : Prims) (plaintext : List Byte) (pass : String)
    (nonce_u8 : List Byte) : Except SrpkError String :=
  match get_aes256gcmsiv P pass with
  | .error e => .error e
  | .ok key =>
    match P.aeadEncrypt key nonce_u8 plaintext with
    | none => .error .AES256Encrypt
    | some ciphertext => .ok (P.b64encode (nonce_u8 ++ ciphertext))

/-- `aes256_encrypt` of `src/crypt.rs`.  The 12 random bytes produced by
`generate_nonce` (OsRng) are passed in as the explicit `nonce_u8` argument. -/
def aes256_encrypt (P : Prims) (plaintext : List Byte) (pass : String)
    (nonce_u8 : List Byte) : Except SrpkError String :=
  aes256_encrypt_with_nonce P plaintext pass nonce_u8

/-- `aes256_decrypt` of `src/crypt.rs`: base64-decode the input
(`Base64Decode` on failure), slice the nonce as the first 12 decoded bytes
(the Rust slice `full_u8[..12]` panics when fewer than 12 bytes were
decoded), take the rest as ciphertext, derive the key from the password,
and AEAD-decrypt (`AES256Decrypt` when the tag does not verify). -/
def aes256_decrypt (P : Prims) (ciphertext : String) (pass : String) : Outcome (List Byte) :=
  match P.b64decode ciphertext with
  | none => .err .Base64Decode
  | some full_u8 =>
    if 12 ≤ full_u8.length then
      match get_aes256gcmsiv P pass with
      | .error e => .err e
      | .ok key =>
        match P.aeadDecrypt key (full_u8.take 12) (full_u8.drop 12) with
        | some v => .ok v
        | none => .err .AES256Decrypt
    else .panicked

/-- Modelled from the spec: the key derivation §4.1 prescribes — "apply a
slow, salted password-hashing function (configurable work factor `cost`) to
`password` using `salt`; feed the resulting hash text through a fixed-output
cryptographic hash to produce exactly 32 bytes".  This definition follows
the spec's words (caller-supplied cost and salt); the source's
`get_aes256gcmsiv` is to be compared against it. -/
def get_key_spec (P : Prims) (pass : String) (cost : Nat) (salt : List Byte) :
    Except SrpkError (List Byte) :=
  match P.bcryptStr pass cost salt with
  | none => .error .BCryptHash
  | some bcrypt => .ok (P.sha256 bcrypt)

/-- The contracts the external crates document: base64 decoding inverts
encoding; AEAD decryption under the encrypting key and nonce recovers the
plaintext; AEAD decryption under any other (32-byte) key rejects; SHA-256
digests are 32 bytes; bcrypt succeeds at the valid cost 12 with a 16-byte
salt. -/
structure PrimsOk (P : Prims) : Prop where
  b64_round : ∀ bs, P.b64decode (P.b64encode bs) = some bs
  aead_round : ∀ k n m c, k.length = 32 → P.aeadEncrypt k n m = some c →
    P.aeadDecrypt k n c = some m
  aead_auth : ∀ k k' n m c, k.length = 32 → k'.length = 32 → k ≠ k' →
    P.aeadEncrypt k n m = some c → P.aeadDecrypt k' n c = none
  sha_len : ∀ s, (P.sha256 s).length = 32
  bcrypt_some : ∀ pass, (P.bcryptStr pass 12 zeroSalt).isSome

theorem listTakeAppend {α : Type} (l₁ l₂ : List α) : (l₁ ++ l₂).take l₁.length = l₁ := by
  induction l₁ with
  | nil => simp
  | cons a l ih => simp [ih]

theorem listDropAppend {α : Type} (l₁ l₂ : List α) : (l₁ ++ l₂).drop l₁.length = l₂ := by
  induction l₁ with
  | nil => simp
  | cons a l ih => simp [ih]

theorem get_aes256gcmsiv_length (P : Prims) (hP : PrimsOk P) (pass : String)
    (key : List Byte) (h : get_aes256gcmsiv P pass = .ok key) : key.length = 32 := by
  unfold get_aes256gcmsiv at h
  cases hb : P.bcryptStr pass 12 zeroSalt with
  | none => rw [hb] at h; exact absurd h (by simp)
  | some bc =>
    rw [hb] at h
    have : P.sha256 bc = key := by exact Except.ok.inj h
    rw [← this]
    exact hP.sha_len bc

/-!
Concrete instantiations of the primitive interface, used to exhibit
concrete runs.  They satisfy the documented contracts exactly: a
hexadecimal codec in place of base64, prepend-the-key in place of the
AEAD, pad-to-32-bytes in place of SHA-256, and a formatting function in
place of bcrypt (it renders password, cost and salt, so key derivations
with different parameters are distinguishable).
-/

def hexDigitChar (n : Fin 16) : Char :=
  Char.ofNat (if n.val < 10 then 48 + n.val else 87 + n.val)

def hexCharVal (c : Char) : Option (Fin 16) :=
  if h : 48 ≤ c.toNat ∧ c.toNat < 58 then some ⟨c.toNat - 48, by omega⟩
  else if h2 : 97 ≤ c.toNat ∧ c.toNat < 103 then some ⟨c.toNat - 97 + 10, by omega⟩
  else none

def bytesToHex : List Byte → List Char
  | [] => []
  | b :: bs =>
    hexDigitChar ⟨b.val / 16, by have := b.isLt; omega⟩ ::
    hexDigitChar ⟨b.val % 16, by have := b.isLt; omega⟩ :: bytesToHex bs

def hexToBytes : List Char → Option (List Byte)
  | [] => some []
  | c1 :: c2 :: rest =>
    match hexCharVal c1, hexCharVal c2, hexToBytes rest with
    | some hi, some lo, some bs =>
      some (⟨hi.val * 16 + lo.val, by have := hi.isLt; have := lo.isLt; omega⟩ :: bs)
    | _, _, _ => none
  | [_] => none

theorem hexCharVal_hexDigitChar : ∀ n : Fin 16, hexCharVal (hexDigitChar n) = some n := by
  decide

theorem hexToBytes_bytesToHex (bs : List Byte) : hexToBytes (bytesToHex bs) = some bs := by
  induction bs with
  | nil => rfl
  | cons b bs ih =>
    simp only [bytesToHex, hexToBytes, hexCharVal_hexDigitChar, ih]
    have hval : b.val / 16 * 16 + b.val % 16 = b.val := by omega
    simp [Fin.ext_iff, hval]

def toySha (s : String) : List Byte :=
  (strBytes s ++ List.replicate 32 0).take 32

def toyBcrypt (pass : String) (cost : Nat) (salt : List Byte) : Option String :=
  some (toString cost ++ "$" ++ String.mk (salt.map (fun b => Char.ofNat (97 + b.val % 26))) ++ "$" ++ pass)

def toyPrims : Prims where
  bcryptStr := toyBcrypt
  sha256 := toySha
  aeadEncrypt := fun k _n m => some (k ++ m)
  aeadDecrypt := fun k _n c => if c.take 32 = k then some (c.drop 32) else none
  b64encode := fun bs => String.mk (bytesToHex bs)
  b64decode := fun s => hexToBytes s.data

theorem toySha_length (s : String) : (toySha s).length = 32 := by
  simp [toySha]

theorem toyPrimsOk : PrimsOk toyPrims := by
  constructor
  · intro bs
    show hexToBytes (String.mk (bytesToHex bs)).data = some bs
    exact hexToBytes_bytesToHex bs
  · intro k n m c hk henc
    have hc : k ++ m = c := Option.some.inj henc
    show (if c.take 32 = k then some (c.drop 32) else none) = some m
    rw [← hc, ← hk, listTakeAppend, listDropAppend, if_pos rfl]
  · intro k k' n m c hk hk' hne henc
    have hc : k ++ m = c := Option.some.inj henc
    show (if c.take 32 = k' then some (c.drop 32) else none) = none
    have htake : c.take 32 = k := by rw [← hc, ← hk]; exact listTakeAppend k m
    rw [htake, if_neg hne]
  · intro s
    exact toySha_length s
  · intro pass
    exact rfl

/-- A concrete 12-byte (all-zero) nonce standing for one output of
`generate_nonce`. -/
def nonce0 : List Byte := List.replicate 12 0

/-!
The vault session lifecycle of `src/vault.rs`.

The filesystem is a map from paths to byte contents; `std::fs::read`
fails on a missing path, `std::fs::write` creates or truncates, and
`std::fs::remove_file` fails on a missing path.  The sqlite record store
(an external collaborator, spec §6) is abstracted: a database is the list
of its `(key, value)` rows, and the byte form of a store on disk is
related to it by the abstract `sqliteInit` / `sqliteOpen` / `serialize`
operations of `VaultPrims`.  `src/vault.rs` calls a cost-carrying crypt
API (`aes256_encrypt(raw, pass, cost)` returning raw bytes, and
`aes256_decrypt` returning a `CryptValue` with the recovered plaintext
and the envelope's cost); that revision of `src/crypt.rs` is not part of
this snapshot, so those two calls are likewise abstract fields, modelled
from the spec at their interface boundary.
-/

abbrev FS := String → Option (List Byte)

def FS.write (fs : FS) (p : String) (v : List Byte) : FS :=
  fun q => if q = p then some v else fs q

def FS.remove (fs : FS) (p : String) : FS :=
  fun q => if q = p then none else fs q

theorem FS.write_self (fs : FS) (p : String) (v : List Byte) : fs.write p v p = some v := by
  simp [FS.write]

theorem FS.write_ne (fs : FS) (p q : String) (v : List Byte) (h : q ≠ p) :
    fs.write p v q = fs q := by
  simp [FS.write, h]

theorem FS.remove_self (fs : FS) (p : String) : fs.remove p p = none := by
  simp [FS.remove]

theorem FS.remove_ne (fs : FS) (p q : String) (h : q ≠ p) : fs.remove p q = fs q := by
  simp [FS.remove, h]

theorem ne_append_temp (s : String) : s ≠ s ++ ".temp" := by
  intro h
  have h2 := congrArg String.length h
  rw [String.length_append] at h2
  have h5 : (".temp" : String).length = 5 := rfl
  omega

/-- The value returned by the cost-carrying `aes256_decrypt` that
`src/vault.rs` imports: the decrypted plaintext together with the cost
parsed from the envelope. -/
structure CryptValue where
  value : List Byte
  cost : Nat
deriving DecidableEq, Repr

/-- The record store's rows, in insertion order.  The SQL statements of
`src/vault.rs` are embedded directly: INSERT appends a row, the point
SELECT returns the first row with the key, DELETE removes every row with
the key, and the listing SELECT returns every key. -/
abbrev Db := List (String × String)

def Db.get (db : Db) (key : String) : Option String :=
  (db.find? (fun r => r.1 == key)).map (fun r => r.2)

def Db.insert (db : Db) (key pass : String) : Db := db ++ [(key, pass)]

def Db.del (db : Db) (key : String) : Db := db.filter (fun r => r.1 != key)

def Db.keys (db : Db) : List String := db.map (fun r => r.1)

/-- Abstract interface to the external collaborators of `src/vault.rs`.
`sqliteInit` is `sqlite::open` + `CREATE TABLE srpk` + drop, mapping the
prior content of the path (none when absent) to the resulting file bytes
or an error.  `sqliteOpen` parses on-disk bytes into the row list.
`serialize` is the byte form sqlite persists for a row list.
`cryptEncrypt`/`cryptDecrypt` — modelled from the spec (§4.1): the
cost-carrying envelope codec revision used by `src/vault.rs`, absent from
this snapshot's `src/crypt.rs`. -/
structure VaultPrims where
  sqliteInit : Option (List Byte) → Except SrpkError (List Byte)
  sqliteOpen : List Byte → Except SrpkError Db
  serialize : Db → List Byte
  cryptEncrypt : List Byte → String → Nat → Except SrpkError (List Byte)
  cryptDecrypt : List Byte → String → Except SrpkError CryptValue

/-- The session object of `src/vault.rs` (`conn` is the row list the
connection exposes). -/
structure Vault where
  db : Db
  pass : String
  path : String
  path_temp : String
  cost : Nat
deriving DecidableEq, Repr

/-- `Vault::create` of `src/vault.rs`: open/initialize the sqlite store at
`path` (creating the file), read the resulting bytes back, encrypt them
with `pass` and `cost`, and overwrite `path` with the envelope.  Note the
source performs no existence check on `path` (its `// verify clean slate`
comment is followed by none). -/
def Vault.create (vp : VaultPrims) (fs : FS) (path pass : String) (cost : Nat) :
    Except SrpkError Unit × FS :=
  match vp.sqliteInit (fs path) with
  | .error e => (.error e, fs)
  | .ok dbBytes =>
    let fs1 := fs.write path dbBytes
    match fs1 path with
    | none => (.error .PathEmpty, fs1)
    | some db_raw =>
      match vp.cryptEncrypt db_raw pass cost with
      | .error e => (.error e, fs1)
      | .ok db_enc => (.ok (), fs1.write path db_enc)

/-- `Vault::open` of `src/vault.rs`: derive `path_temp = path + ".temp"`,
read and decrypt the envelope at `path`, write the plaintext to
`path_temp`, and open the record store against it.  The source performs
no existence check on `path_temp` before the write. -/
def Vault.open' (vp : VaultPrims) (fs : FS) (path pass : String) :
    Except SrpkError Vault × FS :=
  match fs path with
  | none => (.error .PathEmpty, fs)
  | some db_enc =>
    match vp.cryptDecrypt db_enc pass with
    | .error e => (.error e, fs)
    | .ok db_raw =>
      let fs1 := fs.write (path ++ ".temp") db_raw.value
      match vp.sqliteOpen db_raw.value with
      | .error e => (.error e, fs1)
      | .ok conn =>
        (.ok ⟨conn, pass, path, path ++ ".temp", db_raw.cost⟩, fs1)

/-- `Vault::close` of `src/vault.rs`: when `changed`, read `path_temp`,
encrypt with the stored password and cost, and overwrite `path`; in every
case then drop the connection and delete `path_temp`. -/
def Vault.close (vp : VaultPrims) (v : Vault) (fs : FS) (changed : Bool) :
    Except SrpkError Unit × FS :=
  match changed with
  | true =>
    match fs v.path_temp with
    | none => (.error .PathEmpty, fs)
    | some db_raw =>
      match vp.cryptEncrypt db_raw v.pass v.cost with
      | .error e => (.error e, fs)
      | .ok db_enc =>
        let fs1 := fs.write v.path db_enc
        match fs1 v.path_temp with
        | none => (.error .PathEmpty, fs1)
        | some _ => (.ok (), fs1.remove v.path_temp)
  | false =>
    match fs v.path_temp with
    | none => (.error .PathEmpty, fs)
    | some _ => (.ok (), fs.remove v.path_temp)

/-- `Vault::key_new`: duplicate check via the point lookup, then INSERT
(persisted to `path_temp` by the connection). -/
def Vault.key_new (vp : VaultPrims) (v : Vault) (fs : FS) (key pass : String) :
    Except SrpkError Unit × Vault × FS :=
  match v.db.get key with
  | some _ => (.error (.KeyDuplicate key), v, fs)
  | none =>
    let db1 := v.db.insert key pass
    (.ok (), { v with db := db1 }, fs.write v.path_temp (vp.serialize db1))

/-- `Vault::key_get`: point SELECT on the open store; reads only the
working copy, leaving the filesystem as is. -/
def Vault.key_get (v : Vault) (fs : FS) (key : String) :
    Except SrpkError (Option String) × FS :=
  (.ok (v.db.get key), fs)

/-- `Vault::key_del`: existence check via the point lookup, then DELETE
(persisted to `path_temp` by the connection). -/
def Vault.key_del (vp : VaultPrims) (v : Vault) (fs : FS) (key : String) :
    Except SrpkError Unit × Vault × FS :=
  match v.db.get key with
  | none => (.error (.KeyNonExist key), v, fs)
  | some _ =>
    let db1 := v.db.del key
    (.ok (), { v with db := db1 }, fs.write v.path_temp (vp.serialize db1))

/-- `Vault::key_ls`: listing SELECT on the open store. -/
def Vault.key_ls (v : Vault) (fs : FS) : Except SrpkError (List String) × FS :=
  (.ok v.db.keys, fs)

/-!
Concrete collaborator instances and filesystem states for exhibiting
vault-session runs.
-/

def toyVP : VaultPrims where
  sqliteInit := fun _prior => .ok [9]
  sqliteOpen := fun _bytes => .ok []
  serialize := fun db => [byteOf db.length]
  cryptEncrypt := fun raw _pass cost => .ok (byteOf cost :: raw)
  cryptDecrypt := fun enc _pass => .ok ⟨enc, 12⟩

def toyVP9 : VaultPrims :=
  { toyVP with sqliteOpen := fun _bytes => .error .DBSQLConn }

def toyVPbad : VaultPrims :=
  { toyVP with cryptDecrypt := fun _enc _pass => .error .AES256Decrypt }

/-- A filesystem whose only file is an empty (0-byte) file at `"v"`. -/
def fsEmptyFile : FS := fun q => if q = "v" then some [] else none

/-- A filesystem holding a vault file at `"v"`. -/
def fsV : FS := fun q => if q = "v" then some [7] else none

/-- A filesystem holding a vault file at `"v"` and a stale working copy at
`"v.temp"`. -/
def fsVT : FS :=
  fun q => if q = "v" then some [7] else if q = "v.temp" then some [99] else none

/-!
Claims about the envelope codec (`src/crypt.rs`).
-/

/-- C1: for every plaintext byte sequence, password, and valid cost in
[5, 31], decrypting the result of encrypting with the same password
returns exactly the plaintext.  Note the source's `aes256_encrypt` takes
no cost argument (its bcrypt cost is the hard-coded 12), so the cost
quantification is vacuous: the round trip holds for every cost in range.
`nonce` stands for the 12 random bytes of `generate_nonce`. -/
theorem aes256_round_trip (P : Prims) (hP : PrimsOk P)
    (plaintext : List Byte) (pass : String) (cost : Nat)
    (hcost : 5 ≤ cost ∧ cost ≤ 31)
    (nonce : List Byte) (hnonce : nonce.length = 12)
    (env : String) (henc : aes256_encrypt P plaintext pass nonce = .ok env) :
    aes256_decrypt P env pass = .ok plaintext := by
  unfold aes256_encrypt aes256_encrypt_with_nonce at henc
  cases hg : get_aes256gcmsiv P pass with
  | error e => rw [hg] at henc; exact absurd henc (by simp)
  | ok key =>
    simp only [hg] at henc
    cases hc : P.aeadEncrypt key nonce plaintext with
    | none => exact absurd henc (by simp [hc])
    | some ct =>
      simp only [hc] at henc
      have henv : P.b64encode (nonce ++ ct) = env := Except.ok.inj henc
      have hkey32 : key.length = 32 := get_aes256gcmsiv_length P hP pass key hg
      have hdec : P.aeadDecrypt key nonce ct = some plaintext :=
        hP.aead_round key nonce plaintext ct hkey32 hc
      have hlen : 12 ≤ (nonce ++ ct).length := by
        rw [List.length_append, hnonce]; omega
      have htake : (nonce ++ ct).take 12 = nonce := by
        rw [← hnonce]; exact listTakeAppend nonce ct
      have hdrop : (nonce ++ ct).drop 12 = ct := by
        rw [← hnonce]; exact listDropAppend nonce ct
      simp only [aes256_decrypt, ← henv, hP.b64_round, hlen, if_true, hg, htake, hdrop, hdec]

/-- A concrete envelope produced by the concrete primitive instance,
exercising the C1 round trip. -/
def envC1 : String :=
  match aes256_encrypt toyPrims [3, 7] "w" nonce0 with
  | .ok e => e
  | .error _ => ""

/-- Witness for C1 at a concrete plaintext, password, cost and nonce. -/
theorem aes256_round_trip_witness :
    aes256_decrypt toyPrims envC1 "w" = .ok [3, 7] :=
  aes256_round_trip toyPrims toyPrimsOk [3, 7] "w" 12 (by decide) nonce0 (by decide)
    envC1 (by decide)

/-- C2: decrypting an envelope produced under one password with a
different password fails with the authentication-failure error
`AES256Decrypt` ("decrypt failed (bad password?)") and never returns
plaintext bytes.  The hypothesis `hkdf` is the idealized collision
freeness of the key derivation: distinct passwords derive distinct keys
(true of real bcrypt/SHA-256 up to astronomically unlikely collisions). -/
theorem aes256_wrong_password (P : Prims) (hP : PrimsOk P)
    (pass1 pass2 : String) (hne : pass1 ≠ pass2)
    (hkdf : get_aes256gcmsiv P pass1 ≠ get_aes256gcmsiv P pass2)
    (plaintext : List Byte) (nonce : List Byte) (hnonce : nonce.length = 12)
    (env : String) (henc : aes256_encrypt P plaintext pass1 nonce = .ok env) :
    aes256_decrypt P env pass2 = .err .AES256Decrypt := by
  unfold aes256_encrypt aes256_encrypt_with_nonce at henc
  cases hg1 : get_aes256gcmsiv P pass1 with
  | error e => rw [hg1] at henc; exact absurd henc (by simp)
  | ok key1 =>
    simp only [hg1] at henc
    cases hc : P.aeadEncrypt key1 nonce plaintext with
    | none => exact absurd henc (by simp [hc])
    | some ct =>
      simp only [hc] at henc
      have henv : P.b64encode (nonce ++ ct) = env := Except.ok.inj henc
      have hb2 := hP.bcrypt_some pass2
      cases hb : P.bcryptStr pass2 12 zeroSalt with
      | none => rw [hb] at hb2; exact absurd hb2 (by simp)
      | some bc2 =>
        have hg2 : get_aes256gcmsiv P pass2 = .ok (P.sha256 bc2) := by
          unfold get_aes256gcmsiv; rw [hb]
        have hkne : key1 ≠ P.sha256 bc2 := by
          intro h; exact hkdf (by rw [hg1, hg2, h])
        have hk1 : key1.length = 32 := get_aes256gcmsiv_length P hP pass1 key1 hg1
        have hk2 : (P.sha256 bc2).length = 32 := hP.sha_len bc2
        have hdec : P.aeadDecrypt (P.sha256 bc2) nonce ct = none :=
          hP.aead_auth key1 (P.sha256 bc2) nonce plaintext ct hk1 hk2 hkne hc
        have hlen : 12 ≤ (nonce ++ ct).length := by
          rw [List.length_append, hnonce]; omega
        have htake : (nonce ++ ct).take 12 = nonce := by
          rw [← hnonce]; exact listTakeAppend nonce ct
        have hdrop : (nonce ++ ct).drop 12 = ct := by
          rw [← hnonce]; exact listDropAppend nonce ct
        simp only [aes256_decrypt, ← henv, hP.b64_round, hlen, if_true, hg2, htake, hdrop, hdec]

/-- A concrete envelope encrypted under password "a", for the C2 witness. -/
def envC2 : String :=
  match aes256_encrypt toyPrims [1] "a" nonce0 with
  | .ok e => e
  | .error _ => ""

/-- Witness for C2: decrypting the password-"a" envelope with password "b"
fails with `AES256Decrypt`. -/
theorem aes256_wrong_password_witness :
    aes256_decrypt toyPrims envC2 "b" = .err .AES256Decrypt :=
  aes256_wrong_password toyPrims toyPrimsOk "a" "b" (by decide) (by decide) [1] nonce0
    (by decide) envC2 (by decide)

/-- A concrete envelope for examining the output layout. -/
def envC3 : String :=
  match aes256_encrypt toyPrims [1, 2, 3] "p" nonce0 with
  | .ok e => e
  | .error _ => ""

/-- C3 counterexample: the bytes `encrypt` produces are not of the claimed
form `cost(1) || salt(16) || nonce(12) || ciphertext`.  For a concrete
encryption, bytes 17–28 of the output are not the nonce that was used, and
byte 0 is not a valid cost in [5, 31] (it is an ASCII character of the
textual encoding). -/
theorem envelope_layout_counterexample :
    aes256_encrypt toyPrims [1, 2, 3] "p" nonce0 = .ok envC3 ∧
    ((strBytes envC3).drop 17).take 12 ≠ nonce0 ∧
    ¬ (5 ≤ ((strBytes envC3).headD 0).val ∧ ((strBytes envC3).headD 0).val ≤ 31) := by
  decide

/-- C3 amended: the output of `encrypt` is the base64 (STANDARD_NO_PAD)
text encoding of `nonce(12) || ciphertext`; no cost byte and no salt are
stored, and the envelope is encoded text rather than raw bytes. -/
theorem envelope_layout_amended (P : Prims) (plaintext : List Byte) (pass : String)
    (nonce : List Byte) (env : String)
    (henc : aes256_encrypt P plaintext pass nonce = .ok env) :
    ∃ key ciphertext,
      get_aes256gcmsiv P pass = .ok key ∧
      P.aeadEncrypt key nonce plaintext = some ciphertext ∧
      env = P.b64encode (nonce ++ ciphertext) := by
  unfold aes256_encrypt aes256_encrypt_with_nonce at henc
  cases hg : get_aes256gcmsiv P pass with
  | error e => simp only [hg] at henc; exact absurd henc (by simp)
  | ok key =>
    simp only [hg] at henc
    cases hc : P.aeadEncrypt key nonce plaintext with
    | none => exact absurd henc (by simp [hc])
    | some ct =>
      simp only [hc] at henc
      exact ⟨key, ct, rfl, hc, (Except.ok.inj henc).symm⟩

/-- Witness for the amended C3 at a concrete encryption. -/
theorem envelope_layout_amended_witness :
    ∃ key ciphertext,
      get_aes256gcmsiv toyPrims "p" = .ok key ∧
      toyPrims.aeadEncrypt key nonce0 [1, 2, 3] = some ciphertext ∧
      envC3 = toyPrims.b64encode (nonce0 ++ ciphertext) :=
  envelope_layout_amended toyPrims [1, 2, 3] "p" nonce0 envC3 (by decide)

/-- A 16-byte salt differing from the hard-coded zero salt. -/
def salt1 : List Byte := 1 :: List.replicate 15 0

/-- C4 counterexample: the key derivation of the source neither uses a
caller-supplied cost nor a fresh random salt — at a caller cost of 5 and a
nonzero salt the spec's derivation disagrees with what the code computes,
while the code's derivation always coincides with the spec derivation
specialized to the hard-coded cost 12 and the all-zero salt. -/
theorem key_derivation_counterexample :
    get_aes256gcmsiv toyPrims "p" ≠ get_key_spec toyPrims "p" 5 salt1 ∧
    get_aes256gcmsiv toyPrims "p" = get_key_spec toyPrims "p" 12 zeroSalt := by
  decide

/-- C4 amended: both `encrypt` and `decrypt` derive the key by the single
function `get_aes256gcmsiv`, which equals the spec's derivation at the
fixed cost 12 and the fixed all-zero 16-byte salt; the password is the
only input, so no cost or salt varies between the two derivations. -/
theorem key_derivation_amended (P : Prims) (pass : String) :
    get_aes256gcmsiv P pass = get_key_spec P pass 12 zeroSalt := rfl

/-- C5 counterexample: on the empty envelope (which base64-decodes to 0
bytes, fewer than the claimed 29-byte minimum) `decrypt` does not return a
malformed-envelope error (no such variant exists in `SrpkError`): the
Rust slice `full_u8[..12]` panics. -/
theorem decrypt_short_counterexample :
    toyPrims.b64decode "" = some [] ∧
    aes256_decrypt toyPrims "" "p" = .panicked := by
  decide

/-- C5 amended: `decrypt` has no 29-byte check and no cost/salt fields:
when the decoded envelope has fewer than 12 bytes the nonce slice panics,
and with at least 12 decoded bytes it parses the nonce at bytes 0–11 and
the ciphertext as the remainder. -/
theorem decrypt_parse_amended (P : Prims) (env pass : String) (full_u8 : List Byte)
    (hdec : P.b64decode env = some full_u8) :
    (full_u8.length < 12 → aes256_decrypt P env pass = .panicked) ∧
    (12 ≤ full_u8.length →
      aes256_decrypt P env pass =
        match get_aes256gcmsiv P pass with
        | .error e => .err e
        | .ok key =>
          match P.aeadDecrypt key (full_u8.take 12) (full_u8.drop 12) with
          | some v => .ok v
          | none => .err .AES256Decrypt) := by
  constructor
  · intro h
    simp only [aes256_decrypt, hdec]
    rw [if_neg (by omega)]
  · intro h
    simp only [aes256_decrypt, hdec]
    rw [if_pos h]

/-- Witness for the amended C5 at the empty envelope. -/
theorem decrypt_parse_amended_witness :
    (([] : List Byte).length < 12 → aes256_decrypt toyPrims "" "p" = .panicked) ∧
    (12 ≤ ([] : List Byte).length →
      aes256_decrypt toyPrims "" "p" =
        match get_aes256gcmsiv toyPrims "p" with
        | .error e => .err e
        | .ok key =>
          match toyPrims.aeadDecrypt key (([] : List Byte).take 12) (([] : List Byte).drop 12) with
          | some v => .ok v
          | none => .err .AES256Decrypt) :=
  decrypt_parse_amended toyPrims "" "p" [] (by decide)

/-!
Claims about the vault session lifecycle (`src/vault.rs`).
-/

/-- C6 (evaluation at the failing input): `Vault::create` at a path that
already exists as a 0-byte file (which sqlite opens as a fresh database)
performs no existence check — its `// verify clean slate` comment is
followed by none, and the `PathTaken` variant is never constructed
anywhere in the source.  The call succeeds and overwrites the existing
file's bytes. -/
theorem create_overwrites_existing :
    fsEmptyFile "v" = some [] ∧
    (Vault.create toyVP fsEmptyFile "v" "p" 12).1 = .ok () ∧
    (Vault.create toyVP fsEmptyFile "v" "p" 12).2 "v" = some [12, 9] ∧
    (Vault.create toyVP fsEmptyFile "v" "p" 12).2 "v" ≠ fsEmptyFile "v" := by
  decide

/-- C7 counterexample: with a stale working copy present at
`"v" ++ ".temp"`, `Vault::open` does not fail with `PathTaken`; it
succeeds and overwrites the stale working copy with the freshly decrypted
plaintext. -/
theorem open_existing_temp_counterexample :
    fsVT ("v" ++ ".temp") = some [99] ∧
    (Vault.open' toyVP fsVT "v" "p").1 = .ok ⟨[], "p", "v", "v" ++ ".temp", 12⟩ ∧
    (Vault.open' toyVP fsVT "v" "p").2 ("v" ++ ".temp") = some [7] := by
  decide

theorem open_ok_elim (vp : VaultPrims) (fs : FS) (path pass : String) (v : Vault)
    (hopen : (Vault.open' vp fs path pass).1 = .ok v) :
    ∃ db_enc db_raw conn,
      fs path = some db_enc ∧
      vp.cryptDecrypt db_enc pass = .ok db_raw ∧
      vp.sqliteOpen db_raw.value = .ok conn ∧
      v = ⟨conn, pass, path, path ++ ".temp", db_raw.cost⟩ ∧
      (Vault.open' vp fs path pass).2 = fs.write (path ++ ".temp") db_raw.value := by
  unfold Vault.open' at hopen ⊢
  cases h1 : fs path with
  | none => simp only [h1] at hopen; exact absurd hopen (by simp)
  | some db_enc =>
    simp only [h1] at hopen ⊢
    cases h2 : vp.cryptDecrypt db_enc pass with
    | error e => simp only [h2] at hopen; exact absurd hopen (by simp)
    | ok db_raw =>
      simp only [h2] at hopen ⊢
      cases h3 : vp.sqliteOpen db_raw.value with
      | error e => simp only [h3] at hopen; exact absurd hopen (by simp)
      | ok conn =>
        simp only [h3] at hopen ⊢
        exact ⟨db_enc, db_raw, conn, rfl, h2, h3, (Except.ok.inj hopen).symm, rfl⟩

/-- C7 amended: `Vault::open` performs no existence check on `path_temp`:
whenever it succeeds it has unconditionally overwritten `path_temp` with
the decrypted plaintext, whatever was there before. -/
theorem open_overwrites_temp_amended (vp : VaultPrims) (fs : FS) (path pass : String)
    (v : Vault) (hopen : (Vault.open' vp fs path pass).1 = .ok v) :
    ∃ db_enc db_raw,
      fs path = some db_enc ∧
      vp.cryptDecrypt db_enc pass = .ok db_raw ∧
      v.path_temp = path ++ ".temp" ∧
      (Vault.open' vp fs path pass).2 (path ++ ".temp") = some db_raw.value := by
  obtain ⟨db_enc, db_raw, conn, h1, h2, h3, hv, hfs⟩ := open_ok_elim vp fs path pass v hopen
  subst hv
  rw [hfs]
  exact ⟨db_enc, db_raw, h1, h2, rfl, FS.write_self fs (path ++ ".temp") db_raw.value⟩

/-- Witness for the amended C7: the open over the stale working copy. -/
theorem open_overwrites_temp_amended_witness :
    ∃ db_enc db_raw,
      fsVT "v" = some db_enc ∧
      toyVP.cryptDecrypt db_enc "p" = .ok db_raw ∧
      (⟨[], "p", "v", "v" ++ ".temp", 12⟩ : Vault).path_temp = "v" ++ ".temp" ∧
      (Vault.open' toyVP fsVT "v" "p").2 ("v" ++ ".temp") = some db_raw.value :=
  open_overwrites_temp_amended toyVP fsVT "v" "p" ⟨[], "p", "v", "v" ++ ".temp", 12⟩
    (by decide)

theorem close_true_removes_temp (vp : VaultPrims) (v : Vault) (fs2 : FS)
    (h : (Vault.close vp v fs2 true).1 = .ok ()) :
    (Vault.close vp v fs2 true).2 v.path_temp = none := by
  unfold Vault.close at h ⊢
  cases ha : fs2 v.path_temp with
  | none => simp only [ha] at h; exact absurd h (by simp)
  | some db_raw =>
    simp only [ha] at h ⊢
    cases hb : vp.cryptEncrypt db_raw v.pass v.cost with
    | error e => simp only [hb] at h; exact absurd h (by simp)
    | ok db_enc =>
      simp only [hb] at h ⊢
      cases hc : (fs2.write v.path db_enc) v.path_temp with
      | none => simp only [hc] at h; exact absurd h (by simp)
      | some w => simp only [hc]; exact FS.remove_self _ _

/-- C8: after a successful `open`, `close(false)` succeeds, always deletes
`path_temp`, and leaves the encrypted file at `path` byte-for-byte as it
was before the `open`; and a successful `close(true)` also deletes
`path_temp`.  (On the error paths of `close(true)` the source keeps
`path_temp`, exactly as spec §4.2's failure semantics require.) -/
theorem close_unchanged_preserves_vault (vp : VaultPrims) (fs : FS) (path pass : String)
    (v : Vault) (hopen : (Vault.open' vp fs path pass).1 = .ok v) :
    (Vault.close vp v (Vault.open' vp fs path pass).2 false).1 = .ok () ∧
    (Vault.close vp v (Vault.open' vp fs path pass).2 false).2 (path ++ ".temp") = none ∧
    (Vault.close vp v (Vault.open' vp fs path pass).2 false).2 path = fs path ∧
    (∀ fs2 : FS, (Vault.close vp v fs2 true).1 = .ok () →
      (Vault.close vp v fs2 true).2 v.path_temp = none) := by
  obtain ⟨db_enc, db_raw, conn, h1, h2, h3, hv, hfs⟩ := open_ok_elim vp fs path pass v hopen
  subst hv
  rw [hfs]
  have hw : (fs.write (path ++ ".temp") db_raw.value) (path ++ ".temp") =
      some db_raw.value := FS.write_self fs (path ++ ".temp") db_raw.value
  refine ⟨?_, ?_, ?_, ?_⟩
  · unfold Vault.close
    simp only [hw]
  · unfold Vault.close
    simp only [hw]
    exact FS.remove_self _ _
  · unfold Vault.close
    simp only [hw]
    rw [FS.remove_ne _ _ _ (ne_append_temp path), FS.write_ne _ _ _ _ (ne_append_temp path)]
  · intro fs2 h
    exact close_true_removes_temp vp _ fs2 h

/-- A concrete session run for the C8 witness. -/
def vaultC8 : Vault := ⟨[], "p", "v", "v" ++ ".temp", 12⟩

/-- Witness for C8 on a concrete open/close run. -/
theorem close_unchanged_preserves_vault_witness :
    (Vault.close toyVP vaultC8 (Vault.open' toyVP fsV "v" "p").2 false).1 = .ok () ∧
    (Vault.close toyVP vaultC8 (Vault.open' toyVP fsV "v" "p").2 false).2 ("v" ++ ".temp") = none ∧
    (Vault.close toyVP vaultC8 (Vault.open' toyVP fsV "v" "p").2 false).2 "v" = fsV "v" ∧
    (∀ fs2 : FS, (Vault.close toyVP vaultC8 fs2 true).1 = .ok () →
      (Vault.close toyVP vaultC8 fs2 true).2 vaultC8.path_temp = none) :=
  close_unchanged_preserves_vault toyVP fsV "v" "p" vaultC8 (by decide)

/-- C9 counterexample: an `open` that fails only at the record-store step
(after the working copy has been written) returns an error yet leaves the
freshly written `path_temp` on disk, although no such file existed before
the call. -/
theorem open_failure_artifact_counterexample :
    fsV ("v" ++ ".temp") = none ∧
    (Vault.open' toyVP9 fsV "v" "p").1 = .error .DBSQLConn ∧
    (Vault.open' toyVP9 fsV "v" "p").2 ("v" ++ ".temp") = some [7] := by
  decide

/-- C9 amended: a failed `open` leaves the filesystem untouched (hence no
`path_temp` artifact) only when the failure happens before the working
copy is written — the vault file is missing or decryption fails; a
failure at the record-store step after the write leaves `path_temp` on
disk. -/
theorem open_failure_cleanup_amended (vp : VaultPrims) (fs : FS) (path pass : String)
    (hfail : ∀ db_enc, fs path = some db_enc → ∃ e, vp.cryptDecrypt db_enc pass = .error e) :
    (∃ e, (Vault.open' vp fs path pass).1 = .error e) ∧
    (Vault.open' vp fs path pass).2 = fs := by
  unfold Vault.open'
  cases h1 : fs path with
  | none => exact ⟨⟨.PathEmpty, rfl⟩, rfl⟩
  | some db_enc =>
    obtain ⟨e, he⟩ := hfail db_enc h1
    simp only [he]
    exact ⟨⟨e, rfl⟩, trivial⟩

/-- Witness for the amended C9: an `open` whose decryption fails changes
nothing on disk. -/
theorem open_failure_cleanup_amended_witness :
    (∃ e, (Vault.open' toyVPbad fsV "v" "p").1 = .error e) ∧
    (Vault.open' toyVPbad fsV "v" "p").2 = fsV :=
  open_failure_cleanup_amended toyVPbad fsV "v" "p"
    (fun _db_enc _h => ⟨.AES256Decrypt, rfl⟩)

/-- C10: the record operations `key_new`, `key_get`, `key_del`, `key_ls`
touch only the working copy: every path other than `path_temp` — in
particular the encrypted vault file at `path` — is unchanged by them, and
likewise by `close(false)` and by `open`; so the vault file's bytes change
only through `create` or `close(true)`. -/
theorem key_ops_frame (vp : VaultPrims) (v : Vault) (fs : FS) (key pass q : String)
    (hq : q ≠ v.path_temp) :
    (Vault.key_new vp v fs key pass).2.2 q = fs q ∧
    (Vault.key_del vp v fs key).2.2 q = fs q ∧
    (Vault.key_get v fs key).2 q = fs q ∧
    (Vault.key_ls v fs).2 q = fs q ∧
    (Vault.close vp v fs false).2 q = fs q ∧
    (∀ path2 pass2, q ≠ path2 ++ ".temp" →
      (Vault.open' vp fs path2 pass2).2 q = fs q) := by
  refine ⟨?_, ?_, rfl, rfl, ?_, ?_⟩
  · unfold Vault.key_new
    cases v.db.get key with
    | some _ => rfl
    | none => exact FS.write_ne _ _ _ _ hq
  · unfold Vault.key_del
    cases v.db.get key with
    | none => rfl
    | some _ => exact FS.write_ne _ _ _ _ hq
  · unfold Vault.close
    cases fs v.path_temp with
    | none => rfl
    | some _ => exact FS.remove_ne _ _ _ hq
  · intro path2 pass2 hq2
    unfold Vault.open'
    cases h1 : fs path2 with
    | none => rfl
    | some db_enc =>
      simp only [h1]
      cases h2 : vp.cryptDecrypt db_enc pass2 with
      | error e => simp [h2]
      | ok db_raw =>
        simp only [h2]
        cases h3 : vp.sqliteOpen db_raw.value with
        | error e => simp only [h3]; exact FS.write_ne _ _ _ _ hq2
        | ok conn => simp only [h3]; exact FS.write_ne _ _ _ _ hq2

/-- Witness for C10 at a concrete open session and the vault path. -/
theorem key_ops_frame_witness :
    (Vault.key_new toyVP vaultC8 fsV "k" "pw").2.2 "v" = fsV "v" ∧
    (Vault.key_del toyVP vaultC8 fsV "k").2.2 "v" = fsV "v" ∧
    (Vault.key_get vaultC8 fsV "k").2 "v" = fsV "v" ∧
    (Vault.key_ls vaultC8 fsV).2 "v" = fsV "v" ∧
    (Vault.close toyVP vaultC8 fsV false).2 "v" = fsV "v" ∧
    (∀ path2 pass2, "v" ≠ path2 ++ ".temp" →
      (Vault.open' toyVP fsV path2 pass2).2 "v" = fsV "v") :=
  key_ops_frame toyVP vaultC8 fsV "k" "pw" "v" (by decide)
